import Mathlib

/-!
Verification development for `geoviews/util.py`: a shallow embedding of the
array <-> geometry conversion subsystem, the extent reprojector and the
proj4-string parser, together with theorems settling the specification
claims.  Machine floats are modelled by exact rationals (`NaN` becomes
`Option.none`), numpy arrays by lists of rows, and shapely geometries by an
inductive type carrying their coordinate data.
-/

namespace GeoViewsUtil

/-- A valid coordinate pair (a row of a 2-column array with no NaN). -/
abbrev P := ℚ × ℚ

/-- A row of a 2-column coordinate array; `none` in a component models NaN.
Columns beyond the first two are never inspected by the source
(`path[:, :2]`), so they are not modelled. -/
abbrev Row := Option ℚ × Option ℚ

/-- `np.isnan(row[:2]).sum() > 0`: the row contains a NaN in one of its
first two columns. -/
def isNanRow (r : Row) : Bool := r.1.isNone || r.2.isNone

/-- Embed a valid point as a row (no NaN components). -/
def toRow (p : P) : Row := (some p.1, some p.2)

/-- Read a row known to be NaN-free back as a point.  (All rows reaching
geometry constructors in the source are NaN-free; the `0` default is
unreachable there.) -/
def toPoint (r : Row) : P := (r.1.getD 0, r.2.getD 0)

/-- An all-NaN sentinel row, as inserted by `geom_to_array`. -/
def nanRow : Row := (none, none)

/-- `np.where(np.isnan(path[:, :2]).sum(axis=1))[0]` starting from index
`i`: the indices of the rows containing a NaN, in increasing order. -/
def nanIndicesFrom : List Row → ℕ → List ℕ
  | [], _ => []
  | r :: rest, i =>
    if isNanRow r then i :: nanIndicesFrom rest (i + 1) else nanIndicesFrom rest (i + 1)

/-- The indices of the NaN rows of an array (`splits` in the source). -/
def nanIndices (rows : List Row) : List ℕ := nanIndicesFrom rows 0

/-- `np.split(l, cuts)` with `prev` the previous cut position: the slices
`l[prev:c₁], l[c₁:c₂], …, l[cₖ:]`. -/
def npSplitAux (l : List Row) (prev : ℕ) : List ℕ → List (List Row)
  | [] => [l.drop prev]
  | c :: cs => (l.drop prev).take (c - prev) :: npSplitAux l c cs

/-- `np.split(l, cuts)`. -/
def npSplit (l : List Row) (cuts : List ℕ) : List (List Row) := npSplitAux l 0 cuts

/-- The Array Segmenter:
`paths = np.split(path, splits+1) if len(splits) else [path]`,
splitting at each NaN index + 1 so each sentinel row ends its sub-array. -/
def segmentArray (rows : List Row) : List (List Row) :=
  let splits := nanIndices rows
  if splits.isEmpty then [rows] else npSplit rows (splits.map (· + 1))

/-- The per-part drop rule shared by all four conversion loops:
`if i != (len(paths)-1): path = path[:-1]` — every sub-array except the
last loses its final row (the sentinel row that ended it). -/
def dropClosing : List (List Row) → List (List Row)
  | [] => []
  | [last] => [last]
  | p :: rest => p.dropLast :: dropClosing rest

/-! ### Lemmas about segmentation -/

theorem nanIndicesFrom_eq_nil {rows : List Row} (h : ∀ r ∈ rows, isNanRow r = false) :
    ∀ i, nanIndicesFrom rows i = [] := by
  induction rows with
  | nil => intro i; rfl
  | cons r rest ih =>
    intro i
    have hr : isNanRow r = false := h r (by simp)
    simp only [nanIndicesFrom, hr, Bool.false_eq_true, if_false]
    exact ih (fun x hx => h x (by simp [hx])) (i + 1)

theorem nanIndicesFrom_single {pre post : List Row} {s : Row}
    (hpre : ∀ r ∈ pre, isNanRow r = false) (hs : isNanRow s = true)
    (hpost : ∀ r ∈ post, isNanRow r = false) :
    ∀ i, nanIndicesFrom (pre ++ s :: post) i = [i + pre.length] := by
  induction pre with
  | nil =>
    intro i
    simp only [List.nil_append, nanIndicesFrom, hs, if_true]
    rw [nanIndicesFrom_eq_nil hpost]
    simp
  | cons r rest ih =>
    intro i
    have hr : isNanRow r = false := hpre r (by simp)
    simp only [List.cons_append, nanIndicesFrom, hr, Bool.false_eq_true, if_false,
      List.append_eq]
    rw [ih (fun x hx => hpre x (by simp [hx]))]
    simp only [List.length_cons]
    congr 1
    omega

/-- Segmenting an array whose only NaN row sits between two NaN-free runs
yields exactly the run up to and including the sentinel, then the rest. -/
theorem segmentArray_single_nan {pre post : List Row} {s : Row}
    (hpre : ∀ r ∈ pre, isNanRow r = false) (hs : isNanRow s = true)
    (hpost : ∀ r ∈ post, isNanRow r = false) :
    segmentArray (pre ++ s :: post) = [pre ++ [s], post] := by
  have hsplits : nanIndices (pre ++ s :: post) = [pre.length] := by
    have := nanIndicesFrom_single hpre hs hpost 0
    simpa [nanIndices] using this
  simp only [segmentArray, hsplits, List.isEmpty_cons, Bool.false_eq_true, if_false,
    List.map_cons, List.map_nil, npSplit, npSplitAux, List.drop_zero, Nat.sub_zero]
  rw [List.take_append_eq_append_take, List.drop_append_eq_append_drop]
  simp

theorem dropClosing_pair (a b : List Row) :
    dropClosing [a, b] = [a.dropLast, b] := rfl

/-- CLAIM C1 (amended): splitting at sentinel-index + 1 makes the sentinel
row the final row of every sub-array except the last, so the per-part drop
of the final row removes exactly the sentinel row — not the valid vertex
preceding it.  For an input with one sentinel, the first emitted part is
exactly the run of valid rows preceding the sentinel (the same number of
vertices, not one fewer). -/
theorem segment_drop_removes_sentinel {pre post : List Row} {s : Row}
    (hpre : ∀ r ∈ pre, isNanRow r = false) (hs : isNanRow s = true)
    (hpost : ∀ r ∈ post, isNanRow r = false) :
    segmentArray (pre ++ s :: post) = [pre ++ [s], post] ∧
      dropClosing (segmentArray (pre ++ s :: post)) = [pre, post] ∧
      (dropClosing (segmentArray (pre ++ s :: post))).head? = some pre := by
  have hseg := segmentArray_single_nan hpre hs hpost
  refine ⟨hseg, ?_, ?_⟩
  · rw [hseg, dropClosing_pair, List.dropLast_concat]
  · rw [hseg, dropClosing_pair, List.dropLast_concat]
    rfl

/-- Witness for `segment_drop_removes_sentinel` at a concrete input. -/
theorem segment_drop_removes_sentinel_witness :
    dropClosing (segmentArray
        [toRow (1, 1), toRow (2, 2), nanRow, toRow (3, 3), toRow (4, 4)]) =
      [[toRow (1, 1), toRow (2, 2)], [toRow (3, 3), toRow (4, 4)]] :=
  (@segment_drop_removes_sentinel [toRow (1, 1), toRow (2, 2)]
    [toRow (3, 3), toRow (4, 4)] nanRow
    (by decide) (by decide) (by decide)).2.1

/-- A sample five-row array with one sentinel row after a two-row valid run. -/
def exampleRows : List Row :=
  [toRow (1, 1), toRow (2, 2), nanRow, toRow (3, 3), toRow (4, 4)]

/-- CLAIM C1 (counterexample): the claim predicts the first emitted part of
`exampleRows` has `2 - 1 = 1` vertex (run of valid rows before the sentinel
minus a closing duplicate).  The code keeps both valid rows: the dropped
final row is the sentinel itself. -/
theorem segment_drop_counterexample :
    (dropClosing (segmentArray exampleRows)).head? =
        some [toRow (1, 1), toRow (2, 2)] ∧
      ¬ ((dropClosing (segmentArray exampleRows)).head?.map List.length =
        some (2 - 1)) := by
  constructor
  · decide
  · decide

/-! ### Shapely geometries (coordinate-level model) -/

/-- The shapely geometry objects handled by the module, carrying their
coordinate data.  A `polygon` stores its exterior coordinates and hole
rings as passed to the constructor; Multi types store their child
geometries. -/
inductive Geom where
  | point (x y : ℚ)
  | lineString (coords : List P)
  | linearRing (coords : List P)
  | polygon (ext : List P) (holes : List (List P))
  | multiLineString (parts : List Geom)
  | multiPolygon (parts : List Geom)
deriving Repr

/-! ### Line Builder (`path_to_geom`, array datatype) -/

/-- The inner loop of the array branch of `path_to_geom` (duplicated
verbatim in `path_to_geom_dicts`): segment at NaN rows, drop the final row
of every part but the last, skip parts with fewer than 2 points, and build
a `LineString` from each remaining part. -/
def pathLines (rows : List Row) : List Geom :=
  (dropClosing (segmentArray rows)).filterMap fun p =>
    if p.length < 2 then none else some (.lineString (p.map toPoint))

/-- Result of `path_to_geom`: a single geometry (`multi=True`) or the bare
Python list of `LineString`s (`multi=False`). -/
inductive PathResult where
  | geom (g : Geom)
  | geoms (gs : List Geom)
deriving Repr

/-- `path_to_geom` restricted to the array datatype: collect the lines of
every split path in order, then
`return MultiLineString(lines) if multi else lines`. -/
def path_to_geom (paths : List (List Row)) (multi : Bool) : PathResult :=
  let lines := (paths.map pathLines).flatten
  if multi then .geom (.multiLineString lines) else .geoms lines

theorem filterMap_short_parts (f : List Row → Geom) (l : List (List Row)) :
    (l.filterMap fun p => if p.length < 2 then none else some (f p)) =
      (l.filter fun p => 2 ≤ p.length).map f := by
  induction l with
  | nil => rfl
  | cons h t ih =>
    by_cases hc : h.length < 2
    · have hb : ¬ 2 ≤ h.length := by omega
      rw [List.filterMap_cons, List.filter_cons, if_pos hc, if_neg (by simpa using hb), ih]
    · have hb : 2 ≤ h.length := by omega
      rw [List.filterMap_cons, List.filter_cons, if_neg hc, if_pos (by simpa using hb),
        ih, List.map_cons]

/-- CLAIM C3 (counterexample): for an array input with exactly one
qualifying sub-array, the result is not that single `LineString`: with
`multi=True` it is a `MultiLineString` wrapping it, and with `multi=False`
it is the Python list containing it.  (The single-vs-multi collapse the
claim describes happens in `path_to_geom_dicts`, not in `path_to_geom`.) -/
theorem path_to_geom_single_line_counterexample :
    path_to_geom [[toRow (0, 0), toRow (1, 1)]] true =
        .geom (.multiLineString [.lineString [(0, 0), (1, 1)]]) ∧
      path_to_geom [[toRow (0, 0), toRow (1, 1)]] false =
        .geoms [.lineString [(0, 0), (1, 1)]] ∧
      PathResult.geom (.multiLineString [.lineString [(0, 0), (1, 1)]]) ≠
        .geom (.lineString [(0, 0), (1, 1)]) := by
  refine ⟨rfl, rfl, ?_⟩
  simp

/-- CLAIM C3 (amended): each segmented sub-array with at least 2 points
becomes a `LineString`, in order.  With `multi=True` the qualifying lines
are always wrapped in a single `MultiLineString` — also when exactly one
or none qualify (an empty `MultiLineString` when none, so empty input
never raises); with `multi=False` the bare list of qualifying
`LineString`s is returned. -/
theorem path_to_geom_collapse :
    (∀ paths, path_to_geom paths true =
        .geom (.multiLineString (paths.map pathLines).flatten)) ∧
      (∀ paths, path_to_geom paths false = .geoms (paths.map pathLines).flatten) ∧
      (∀ rows, pathLines rows =
        ((dropClosing (segmentArray rows)).filter fun p => 2 ≤ p.length).map
          fun p => .lineString (p.map toPoint)) ∧
      path_to_geom [] true = .geom (.multiLineString []) ∧
      (∀ paths,
        (∀ rows ∈ paths, ∀ p ∈ dropClosing (segmentArray rows), p.length < 2) →
        path_to_geom paths true = .geom (.multiLineString [])) := by
  refine ⟨fun paths => rfl, fun paths => rfl, fun rows => ?_, rfl, fun paths h => ?_⟩
  · exact filterMap_short_parts _ _
  · have hflat : (paths.map pathLines).flatten = [] := by
      rw [List.flatten_eq_nil_iff]
    -- every per-path line list is empty because every part is too short
      intro l hl
      rw [List.mem_map] at hl
      obtain ⟨rows, hrows, rfl⟩ := hl
      rw [pathLines, filterMap_short_parts]
      have : (dropClosing (segmentArray rows)).filter (fun p => 2 ≤ p.length) = [] := by
        rw [List.filter_eq_nil_iff]
        intro p hp
        have := h rows hrows p hp
        simpa [Nat.not_le] using this
      rw [this, List.map_nil]
    rw [path_to_geom, hflat]
    rfl

/-- Witness for `path_to_geom_collapse`: a one-row input qualifies nowhere
and yields the empty `MultiLineString` with `multi=True`. -/
theorem path_to_geom_collapse_witness :
    path_to_geom [[toRow (0, 0)]] true = .geom (.multiLineString []) :=
  path_to_geom_collapse.2.2.2.2 [[toRow (0, 0)]] (by decide)

/-! ### Geometry-Dict Assembler for Path elements (`path_to_geom_dicts`) -/

/-- The loop of `path_to_geom_dicts` over the per-feature columns.  The
Python local `geom` persists across iterations: `geomVar` is its current
value (`none` = not yet assigned).  The unconditional
`path['geometry'] = geom` reads that local, raising `UnboundLocalError`
when it was never assigned (a feature with no valid line before any
feature with one). -/
def pathDictsLoop (geomVar : Option Geom) :
    List (α × List Row) → Except String (List (α × Geom))
  | [] => .ok []
  | (attrs, rows) :: rest =>
    let subpaths := pathLines rows
    let g : Option Geom :=
      match subpaths with
      | [] => geomVar
      | [l] => some l
      | ls => some (.multiLineString ls)
    match g with
    | none => .error "UnboundLocalError: local variable geom referenced before assignment"
    | some gg =>
      match pathDictsLoop (some gg) rest with
      | .ok tl => .ok ((attrs, gg) :: tl)
      | .error e => .error e

/-- `path_to_geom_dicts` for columnar input: each feature is its attribute
record paired with its stacked coordinate array. -/
def path_to_geom_dicts (features : List (α × List Row)) :
    Except String (List (α × Geom)) :=
  pathDictsLoop none features

/-- CLAIM C2 (code bug): a feature whose segmentation yields zero valid
lines does not get an absent/empty geometry.  If it is the first such
feature, the read of the never-assigned local `geom` raises
`UnboundLocalError` (first conjunct); if an earlier feature assigned
`geom`, the stale geometry of that earlier feature is attached instead
(second conjunct).  The sibling `polygons_to_geom_dicts` skips this case
with an explicit `continue`; `path_to_geom_dicts` lacks that branch.
Features with exactly one valid line do store it directly, and features
with more store a `MultiLineString` (remaining conjuncts). -/
theorem path_to_geom_dicts_zero_lines_bug :
    path_to_geom_dicts [((0 : ℕ), [toRow (0, 0)])] =
        .error "UnboundLocalError: local variable geom referenced before assignment" ∧
      path_to_geom_dicts
          [((0 : ℕ), [toRow (1, 0), toRow (2, 0)]), ((1 : ℕ), [toRow (5, 5)])] =
        .ok [((0 : ℕ), .lineString [(1, 0), (2, 0)]),
             ((1 : ℕ), .lineString [(1, 0), (2, 0)])] ∧
      path_to_geom_dicts [((0 : ℕ), [toRow (1, 0), toRow (2, 0)])] =
        .ok [((0 : ℕ), .lineString [(1, 0), (2, 0)])] ∧
      path_to_geom_dicts
          [((0 : ℕ), [toRow (1, 0), toRow (2, 0), nanRow, toRow (3, 0), toRow (4, 0)])] =
        .ok [((0 : ℕ), .multiLineString
          [.lineString [(1, 0), (2, 0)], .lineString [(3, 0), (4, 0)]])] :=
  ⟨rfl, rfl, rfl, rfl⟩

/-! ### Polygon assembler (`polygons_to_geom_dicts`) -/

/-- The inner loop of `polygons_to_geom_dicts` over the enumerated split
arrays of one feature, after the shared per-part sentinel drop
(`dropClosing`, applied by the caller).  `j` is the running part index,
`splitsEmpty` the `not len(splits)` test, `subholes` the feature's
per-part hole-ring lists (`[[LinearRing(h) for h in hs] for hs in
holes[i]]`, rings kept as their coordinate lists).  Returns the built
sub-polygons and the `invalid` flag.  `Polygon(arr, subholes[j])` and
`Polygon(Polygon(arr).exterior, holes=subholes[j])` both yield a polygon
with exterior `arr` and the positionally indexed holes, so the two source
branches coincide in the model. -/
def buildSubpolys (skipInvalid hasHoles splitsEmpty : Bool)
    (subholes : List (List (List P))) :
    ℕ → List (List Row) → List Geom × Bool
  | _, [] => ([], false)
  | j, arr :: rest =>
    let tl := buildSubpolys skipInvalid hasHoles splitsEmpty subholes (j + 1) rest
    if arr.length < 3 then
      if skipInvalid then tl
      else (.lineString (arr.map toPoint) :: tl.1, true)
    else if splitsEmpty then
      (.polygon (arr.map toPoint) (if hasHoles then subholes.getD j [] else []) ::
        tl.1, tl.2)
    else
      (.polygon (arr.map toPoint) (if hasHoles then subholes.getD j [] else []) ::
        tl.1, tl.2)

/-- One feature of `polygons_to_geom_dicts`: segment, build sub-polygons,
then either explode (an output record per sub-part when any part degraded
to a `LineString`), collapse to the single geometry, wrap in a
`MultiPolygon`, or skip the feature when nothing was built. -/
def polyFeature (skipInvalid hasHoles : Bool) (attrs : α) (rows : List Row)
    (holesI : List (List (List P))) : List (α × Geom) :=
  let splits := nanIndices rows
  let arrays := dropClosing (segmentArray rows)
  let sp := buildSubpolys skipInvalid hasHoles splits.isEmpty holesI 0 arrays
  if sp.2 then sp.1.map fun g => (attrs, g)
  else
    match sp.1 with
    | [] => []
    | [g] => [(attrs, g)]
    | gs => [(attrs, .multiPolygon gs)]

/-- `polygons_to_geom_dicts` for columnar input: every feature is its
attribute record, its stacked coordinate array, and its declared per-part
hole lists (`holes[i]`, ignored when `hasHoles` is false). -/
def polygons_to_geom_dicts (skipInvalid hasHoles : Bool)
    (features : List (α × List Row × List (List (List P)))) : List (α × Geom) :=
  (features.map fun f => polyFeature skipInvalid hasHoles f.1 f.2.1 f.2.2).flatten

theorem buildSubpolys_spec (se : Bool) (subholes : List (List (List P))) :
    ∀ (arrays : List (List Row)) (j : ℕ),
    (buildSubpolys true true se subholes j arrays).1 =
      (arrays.enumFrom j).filterMap fun ja =>
        if ja.2.length < 3 then none
        else some (Geom.polygon (ja.2.map toPoint) (subholes.getD ja.1 [])) := by
  intro arrays
  induction arrays with
  | nil => intro j; rfl
  | cons a t ih =>
    intro j
    by_cases hc : a.length < 3 <;>
      simp [buildSubpolys, hc, List.enumFrom, List.filterMap_cons, ih (j + 1)]

/-- CLAIM C4 (confirmed): hole association is purely positional.  With
`skip_invalid=True` (the default) and holes declared, the sub-polygons a
feature produces are exactly: for every segmented (and sentinel-dropped)
part at position `j` with at least 3 rows, a polygon whose exterior is
that part and whose holes are exactly the positionally indexed
`subholes[j]`.  The equation holds for either value of the
`not len(splits)` test (both source branches attach `subholes[j]`), and
its right-hand side depends only on the part index — no geometric
containment or intersection test influences which holes a part receives. -/
theorem polygons_holes_positional (rows : List Row)
    (subholes : List (List (List P))) (se : Bool) :
    (buildSubpolys true true se subholes 0 (dropClosing (segmentArray rows))).1 =
      (dropClosing (segmentArray rows)).enum.filterMap fun ja =>
        if ja.2.length < 3 then none
        else some (Geom.polygon (ja.2.map toPoint) (subholes.getD ja.1 [])) := by
  have h := buildSubpolys_spec se subholes (dropClosing (segmentArray rows)) 0
  simpa [List.enum] using h

/-! ### `to_ccw` (polygon reorientation) -/

/-- Cross product of two points, the shoelace summand. -/
def cross (p q : P) : ℚ := p.1 * q.2 - q.1 * p.2

/-- Shoelace sum over the consecutive pairs of a coordinate sequence
(shapely ring coordinate sequences are closed, first = last, so no
wrap-around term is needed). -/
def shoelaceSum : List P → ℚ
  | p :: q :: rest => cross p q + shoelaceSum (q :: rest)
  | _ => 0

/-- shapely `signed_area` of a ring: half the shoelace sum, positive for a
counter-clockwise ring. -/
def signed_area (ring : List P) : ℚ := shoelaceSum ring / 2

/-- shapely 1.x `is_ccw` predicate: `signed_area(ring) >= 0.0`. -/
def is_ccw (ring : List P) : Bool := decide (0 ≤ signed_area ring)

/-- shapely `shapely.geometry.polygon.orient(polygon, sign=1.0)`: keep the
exterior if its signed area is nonnegative, else reverse it; keep each
hole if its signed area is nonpositive, else reverse it. -/
def orient (ext : List P) (holes : List (List P)) : Geom :=
  .polygon (if 0 ≤ signed_area ext then ext else ext.reverse)
    (holes.map fun h => if signed_area h ≤ 0 then h else h.reverse)

/-- `to_ccw`: reorient a polygon whose exterior is not counter-clockwise;
leave every other geometry (and every already-ccw polygon) untouched. -/
def to_ccw (g : Geom) : Geom :=
  match g with
  | .polygon ext holes => if is_ccw ext then g else orient ext holes
  | g => g

theorem cross_swap (p q : P) : cross q p = -cross p q := by
  simp only [cross]; ring

theorem shoelaceSum_append_singleton :
    ∀ (l : List P) (a : P),
      shoelaceSum (l ++ [a]) = shoelaceSum l + (l.getLast?.elim 0 fun b => cross b a) := by
  intro l
  induction l with
  | nil => intro a; simp [shoelaceSum]
  | cons x t ih =>
    intro a
    cases t with
    | nil => simp [shoelaceSum]
    | cons y t2 =>
      have := ih a
      simp only [List.cons_append, List.append_eq, shoelaceSum,
        List.getLast?_cons_cons] at this ⊢
      rw [this]
      ring

theorem shoelaceSum_reverse (l : List P) : shoelaceSum l.reverse = -shoelaceSum l := by
  induction l with
  | nil => simp [shoelaceSum]
  | cons a t ih =>
    rw [List.reverse_cons, shoelaceSum_append_singleton, ih, List.getLast?_reverse]
    cases t with
    | nil => simp [shoelaceSum]
    | cons h t2 =>
      simp only [List.head?_cons, Option.elim_some, shoelaceSum]
      rw [cross_swap]
      ring

theorem signed_area_reverse (l : List P) : signed_area l.reverse = -signed_area l := by
  simp only [signed_area, shoelaceSum_reverse]
  ring

/-- CLAIM C10 (confirmed): `to_ccw` is the identity on every non-polygon
geometry and on every polygon whose exterior is already counter-clockwise
(`is_ccw`, i.e. nonnegative signed area), reorients exactly the polygons
with a clockwise exterior, and is idempotent: reversing a
negative-signed-area exterior makes its signed area positive, so a second
application changes nothing. -/
theorem to_ccw_spec :
    (∀ x y, to_ccw (.point x y) = .point x y) ∧
      (∀ c, to_ccw (.lineString c) = .lineString c) ∧
      (∀ c, to_ccw (.linearRing c) = .linearRing c) ∧
      (∀ ps, to_ccw (.multiLineString ps) = .multiLineString ps) ∧
      (∀ ps, to_ccw (.multiPolygon ps) = .multiPolygon ps) ∧
      (∀ ext holes, is_ccw ext = true → to_ccw (.polygon ext holes) = .polygon ext holes) ∧
      (∀ ext holes, is_ccw ext = false → to_ccw (.polygon ext holes) = orient ext holes) ∧
      (∀ g, to_ccw (to_ccw g) = to_ccw g) := by
  have hpoly : ∀ ext holes, is_ccw ext = true →
      to_ccw (.polygon ext holes) = .polygon ext holes := by
    intro ext holes h
    simp [to_ccw, h]
  have hcw : ∀ ext holes, is_ccw ext = false →
      to_ccw (.polygon ext holes) = orient ext holes := by
    intro ext holes h
    simp [to_ccw, h]
  refine ⟨fun x y => rfl, fun c => rfl, fun c => rfl, fun ps => rfl, fun ps => rfl,
    hpoly, hcw, fun g => ?_⟩
  cases g with
  | polygon ext holes =>
    by_cases h : is_ccw ext = true
    · rw [hpoly ext holes h, hpoly ext holes h]
    · have hf : is_ccw ext = false := by
        cases hb : is_ccw ext
        · rfl
        · exact absurd hb h
      have hneg : signed_area ext < 0 := by simpa [is_ccw] using hf
      rw [hcw ext holes hf]
      have hori : orient ext holes =
          .polygon ext.reverse (holes.map fun h => if signed_area h ≤ 0 then h else h.reverse) := by
        simp [orient, not_le.mpr hneg]
      rw [hori]
      have hccw : is_ccw ext.reverse = true := by
        simp only [is_ccw, signed_area_reverse, decide_eq_true_eq]
        linarith
      exact hpoly _ _ hccw
  | point x y => rfl
  | lineString c => rfl
  | linearRing c => rfl
  | multiLineString ps => rfl
  | multiPolygon ps => rfl

/-- A clockwise unit square (signed area −1), closed like a shapely ring. -/
def cwSquare : List P := [(0, 0), (0, 1), (1, 1), (1, 0), (0, 0)]

/-- Witness for `to_ccw_spec`: a non-polygon is untouched, a clockwise
square is reoriented, and the double application is stable on it. -/
theorem to_ccw_spec_witness :
    to_ccw (.point 1 2) = .point 1 2 ∧
      is_ccw cwSquare = false ∧
      to_ccw (.polygon cwSquare []) = orient cwSquare [] ∧
      to_ccw (to_ccw (.polygon cwSquare [])) = to_ccw (.polygon cwSquare []) :=
  ⟨to_ccw_spec.1 1 2,
    by norm_num [is_ccw, signed_area, shoelaceSum, cross, cwSquare],
    to_ccw_spec.2.2.2.2.2.2.1 cwSquare []
      (by norm_num [is_ccw, signed_area, shoelaceSum, cross, cwSquare]),
    to_ccw_spec.2.2.2.2.2.2.2 (.polygon cwSquare [])⟩

/-! ### Array Recoverer (`geom_to_arr`, `geom_to_array`) -/

/-- The flat coordinate buffer of a coordinate sequence
(x₀, y₀, x₁, y₁, …). -/
def flatOfCoords (c : List P) : List ℚ := c.flatMap fun p => [p.1, p.2]

/-- Reshape a flat buffer of even length into coordinate pairs
(`np.array(arr).reshape(len(arr)/2, 2)`). -/
def pairUp : List ℚ → List P
  | x :: y :: rest => (x, y) :: pairUp rest
  | _ => []

/-- `geom.array_interface_base['data']`: the flat coordinate buffer of the
geometry.  Points, LineStrings and LinearRings provide it; Polygons and
Multi types do not (the source raises `NotImplementedError` there). -/
def arrData : Geom → Option (List ℚ)
  | .point x y => some [x, y]
  | .lineString c => some (flatOfCoords c)
  | .linearRing c => some (flatOfCoords c)
  | _ => none

/-- `geom_to_arr`: take the flat buffer, drop the trailing value if the
count is odd, and reshape into (x, y) rows. -/
def geom_to_arr (g : Geom) : Option (List P) :=
  (arrData g).map fun arr => pairUp (if arr.length % 2 = 0 then arr else arr.dropLast)

/-- The accumulation loop of the Multi/collection branch of
`geom_to_array`: each child contributes its `geom_to_arr` rows; a child
without a flat buffer propagates the failure. -/
def collectParts : List Geom → Option (List (List Row))
  | [] => some []
  | g :: rest =>
    match geom_to_arr g, collectParts rest with
    | some coords, some tl => some ((coords.map toRow) :: tl)
    | _, _ => none

/-- `xs.append(arr); xs.append([np.NaN])` per part, then
`np.concatenate(xs[:-1])`: every part is followed by a single sentinel
block and the final sentinel block is dropped before concatenation. -/
def multiJoin (rs : List (List Row)) : List Row :=
  ((rs.map fun r => [r, [nanRow]]).flatten.dropLast).flatten

/-- `geom_to_array`: Point → one row; geometry with an `exterior`
(Polygon) → the exterior's coordinates; LineString/LinearRing →
`geom_to_arr`; Multi/collection → the parts joined with sentinel rows. -/
def geom_to_array : Geom → Option (List Row)
  | .point x y => some [toRow (x, y)]
  | .polygon ext _ => some (ext.map toRow)
  | .lineString c => (geom_to_arr (.lineString c)).map (List.map toRow)
  | .linearRing c => (geom_to_arr (.linearRing c)).map (List.map toRow)
  | .multiLineString parts => (collectParts parts).map multiJoin
  | .multiPolygon parts => (collectParts parts).map multiJoin

/-- Join row blocks with a separator between consecutive blocks (the shape
`geom_to_array` produces for a Multi geometry). -/
def sepJoin (sep : List Row) : List (List Row) → List Row
  | [] => []
  | [r] => r
  | r :: rest => r ++ sep ++ sepJoin sep rest

theorem flatOfCoords_cons (p : P) (t : List P) :
    flatOfCoords (p :: t) = p.1 :: p.2 :: flatOfCoords t := rfl

theorem flatOfCoords_length (c : List P) : (flatOfCoords c).length = 2 * c.length := by
  induction c with
  | nil => rfl
  | cons p t ih =>
    rw [flatOfCoords_cons, List.length_cons, List.length_cons, ih, List.length_cons]
    ring

theorem pairUp_flatOfCoords (c : List P) : pairUp (flatOfCoords c) = c := by
  induction c with
  | nil => rfl
  | cons p t ih =>
    rw [flatOfCoords_cons]
    show (p.1, p.2) :: pairUp (flatOfCoords t) = p :: t
    rw [ih]

theorem geom_to_arr_lineString (c : List P) : geom_to_arr (.lineString c) = some c := by
  have hlen : (flatOfCoords c).length % 2 = 0 := by
    rw [flatOfCoords_length]; omega
  show some (pairUp (if (flatOfCoords c).length % 2 = 0
      then flatOfCoords c else (flatOfCoords c).dropLast)) = some c
  rw [if_pos hlen, pairUp_flatOfCoords]

theorem collectParts_lineStrings (cs : List (List P)) :
    collectParts (cs.map .lineString) = some (cs.map fun c => c.map toRow) := by
  induction cs with
  | nil => rfl
  | cons c t ih => simp [collectParts, geom_to_arr_lineString, ih]

theorem dropLast_append_ne_nil {b : List (List Row)} (a : List (List Row))
    (hb : b ≠ []) : (a ++ b).dropLast = a ++ b.dropLast := by
  induction a with
  | nil => rfl
  | cons x t ih =>
    cases hab : t ++ b with
    | nil =>
      rcases List.append_eq_nil.mp hab with ⟨_, h2⟩
      exact absurd h2 hb
    | cons y l =>
      rw [List.cons_append, hab, List.dropLast_cons₂, ← hab, ih]
      rfl

theorem multiJoin_eq_sepJoin :
    ∀ rs : List (List Row), rs ≠ [] → multiJoin rs = sepJoin [nanRow] rs := by
  intro rs
  induction rs with
  | nil => intro h; exact absurd rfl h
  | cons r t ih =>
    intro _
    cases t with
    | nil => simp [multiJoin, sepJoin]
    | cons r2 t2 =>
      have step : multiJoin (r :: r2 :: t2) =
          r ++ [nanRow] ++ multiJoin (r2 :: t2) := by
        simp only [multiJoin, List.map_cons, List.flatten_cons]
        rw [show ([r, [nanRow]] : List (List Row)) = [r] ++ [[nanRow]] from rfl]
        rw [List.append_assoc, dropLast_append_ne_nil _ (by simp)]
        simp
      rw [step, ih (by simp)]
      rfl

theorem isNanRow_toRow (p : P) : isNanRow (toRow p) = false := rfl

theorem countP_sepJoin :
    ∀ rs : List (List Row), rs ≠ [] →
      (∀ r ∈ rs, ∀ x ∈ r, isNanRow x = false) →
      (sepJoin [nanRow] rs).countP isNanRow = rs.length - 1 := by
  intro rs
  induction rs with
  | nil => intro h; exact absurd rfl h
  | cons r t ih =>
    intro _ hclean
    cases t with
    | nil =>
      simp only [sepJoin, List.length_cons, List.length_nil, Nat.add_sub_cancel]
      rw [List.countP_eq_zero.mpr]
      intro x hx
      simp [hclean r (by simp) x hx]
    | cons r2 t2 =>
      have hrec := ih (by simp) (fun a ha x hx => hclean a (by simp [ha]) x hx)
      simp only [sepJoin] at hrec ⊢
      rw [List.countP_append, List.countP_append, hrec]
      rw [List.countP_eq_zero.mpr (fun x hx => by simp [hclean r (by simp) x hx])]
      have : List.countP isNanRow [nanRow] = 1 := rfl
      rw [this]
      simp only [List.length_cons]
      omega

theorem head?_append_ne_nil {r : List Row} (s : List Row) (h : r ≠ []) :
    (r ++ s).head? = r.head? := by
  cases r with
  | nil => exact absurd rfl h
  | cons x t => rfl

theorem sepJoin_head :
    ∀ rs : List (List Row), rs ≠ [] → (∀ r ∈ rs, r ≠ []) →
      ∃ r hd, r ∈ rs ∧ hd ∈ r ∧ (sepJoin [nanRow] rs).head? = some hd := by
  intro rs
  induction rs with
  | nil => intro h; exact absurd rfl h
  | cons r t _ =>
    intro _ hne
    have hr : r ≠ [] := hne r (by simp)
    cases hx : r.head? with
    | none => exact absurd (List.head?_eq_none_iff.mp hx) hr
    | some hd =>
      refine ⟨r, hd, by simp, List.mem_of_mem_head? hx, ?_⟩
      cases t with
      | nil => simpa [sepJoin] using hx
      | cons r2 t2 =>
        simp only [sepJoin, List.append_assoc]
        rw [head?_append_ne_nil _ hr]
        exact hx

theorem getLast?_append_ne_nil {s : List Row} (r : List Row) (h : s ≠ []) :
    (r ++ s).getLast? = s.getLast? := by
  induction r with
  | nil => rfl
  | cons x t ih =>
    cases hts : t ++ s with
    | nil =>
      rcases List.append_eq_nil.mp hts with ⟨_, h2⟩
      exact absurd h2 h
    | cons y l =>
      rw [List.cons_append, hts, List.getLast?_cons_cons, ← hts, ih]

theorem sepJoin_ne_nil (rs : List (List Row)) (hrs : rs ≠ [])
    (hne : ∀ r ∈ rs, r ≠ []) : sepJoin [nanRow] rs ≠ [] := by
  cases rs with
  | nil => exact absurd rfl hrs
  | cons r t =>
    have hr : r ≠ [] := hne r (by simp)
    cases t with
    | nil => simpa [sepJoin] using hr
    | cons r2 t2 =>
      simp only [sepJoin, List.append_assoc]
      intro hcontra
      exact hr (List.append_eq_nil.mp hcontra).1

theorem sepJoin_getLast :
    ∀ rs : List (List Row), rs ≠ [] → (∀ r ∈ rs, r ≠ []) →
      ∃ r lst, r ∈ rs ∧ lst ∈ r ∧ (sepJoin [nanRow] rs).getLast? = some lst := by
  intro rs
  induction rs with
  | nil => intro h; exact absurd rfl h
  | cons r t ih =>
    intro _ hne
    cases t with
    | nil =>
      have hr : r ≠ [] := hne r (by simp)
      cases hx : r.getLast? with
      | none => exact absurd (List.getLast?_eq_none_iff.mp hx) hr
      | some lst =>
        exact ⟨r, lst, by simp, List.mem_of_mem_getLast? hx, by simpa [sepJoin] using hx⟩
    | cons r2 t2 =>
      obtain ⟨rr, lst, h1, h2, h3⟩ := ih (by simp) (fun a ha => hne a (by simp [ha]))
      refine ⟨rr, lst, by simp [h1], h2, ?_⟩
      have hS : sepJoin [nanRow] (r2 :: t2) ≠ [] :=
        sepJoin_ne_nil _ (by simp) (fun a ha => hne a (by simp [ha]))
      simp only [sepJoin, List.append_assoc]
      rw [getLast?_append_ne_nil _ (by simp), getLast?_append_ne_nil _ hS]
      exact h3

/-- CLAIM C7 (confirmed): recovering a `MultiLineString` with `k ≥ 1`
nonempty parts yields the parts' coordinate rows joined by exactly one
sentinel (NaN) row between each consecutive pair of parts — `k − 1`
sentinel rows in total, and the first and last rows of the output are
never sentinels. -/
theorem geom_to_array_multiLineString (cs : List (List P)) (hne : cs ≠ [])
    (hparts : ∀ c ∈ cs, c ≠ []) :
    geom_to_array (.multiLineString (cs.map .lineString)) =
        some (sepJoin [nanRow] (cs.map fun c => c.map toRow)) ∧
      (sepJoin [nanRow] (cs.map fun c => c.map toRow)).countP isNanRow =
        cs.length - 1 ∧
      (∀ r, (sepJoin [nanRow] (cs.map fun c => c.map toRow)).head? = some r →
        isNanRow r = false) ∧
      (∀ r, (sepJoin [nanRow] (cs.map fun c => c.map toRow)).getLast? = some r →
        isNanRow r = false) := by
  have hmapne : (cs.map fun c => c.map toRow) ≠ [] := by
    simpa using hne
  have hmapparts : ∀ r ∈ (cs.map fun c => c.map toRow), r ≠ [] := by
    intro r hr
    rw [List.mem_map] at hr
    obtain ⟨c, hc, rfl⟩ := hr
    simpa using hparts c hc
  refine ⟨?_, ?_, ?_, ?_⟩
  · show (collectParts (cs.map .lineString)).map multiJoin = _
    rw [collectParts_lineStrings, Option.map_some']
    rw [multiJoin_eq_sepJoin _ hmapne]
  · rw [countP_sepJoin _ hmapne ?_, List.length_map]
    intro r hr x hx
    rw [List.mem_map] at hr
    obtain ⟨c, _, rfl⟩ := hr
    rw [List.mem_map] at hx
    obtain ⟨p, _, rfl⟩ := hx
    exact isNanRow_toRow p
  · intro r hr
    obtain ⟨rr, hd, hmem, hhd, hjoin⟩ := sepJoin_head _ hmapne hmapparts
    rw [hjoin] at hr
    obtain rfl : hd = r := by simpa using hr
    rw [List.mem_map] at hmem
    obtain ⟨c, _, rfl⟩ := hmem
    rw [List.mem_map] at hhd
    obtain ⟨p, _, rfl⟩ := hhd
    exact isNanRow_toRow p
  · intro r hr
    obtain ⟨rr, lst, hmem, hlst, hjoin⟩ := sepJoin_getLast _ hmapne hmapparts
    rw [hjoin] at hr
    obtain rfl : lst = r := by simpa using hr
    rw [List.mem_map] at hmem
    obtain ⟨c, _, rfl⟩ := hmem
    rw [List.mem_map] at hlst
    obtain ⟨p, _, rfl⟩ := hlst
    exact isNanRow_toRow p

/-- Witness for `geom_to_array_multiLineString`: a two-part
`MultiLineString` recovers with a single interior sentinel row. -/
theorem geom_to_array_multiLineString_witness :
    geom_to_array (.multiLineString
        [.lineString [(0, 0), (1, 1)], .lineString [(2, 2), (3, 3)]]) =
      some [toRow (0, 0), toRow (1, 1), nanRow, toRow (2, 2), toRow (3, 3)] :=
  (geom_to_array_multiLineString [[(0, 0), (1, 1)], [(2, 2), (3, 3)]]
    (by decide) (by decide)).1

/-! ### Longitude wrapping (`wrap_lons`) -/

/-- numpy float `%` with positive divisor: `a - b * ⌊a / b⌋`, the
representative in `[0, b)`. -/
def qmod (a b : ℚ) : ℚ := a - b * ⌊a / b⌋

/-- `wrap_lons` applied to one sample:
`((lon - base + period * 2) % period) + base`. -/
def wrapLon (v base period : ℚ) : ℚ := qmod (v - base + period * 2) period + base

/-- `wrap_lons(lons, base, period)`: elementwise wrap of an array of
longitudes into `[base, base + period)`. -/
def wrap_lons (lons : List ℚ) (base period : ℚ) : List ℚ :=
  lons.map fun v => wrapLon v base period

/-- CLAIM C8 (confirmed): the wrap function computes
`((value - base + 2 * period) mod period) + base` elementwise, and with
`base = -180`, `period = 360` it maps `200 ↦ -160` and `-200 ↦ 160`. -/
theorem wrap_lons_formula :
    wrap_lons [200] (-180) 360 = [-160] ∧
      wrap_lons [-200] (-180) 360 = [160] ∧
      ∀ lons base period, wrap_lons lons base period =
        lons.map fun v => qmod (v - base + 2 * period) period + base := by
  refine ⟨?_, ?_, fun lons base period => ?_⟩
  · have h1 : ⌊(1100 : ℚ) / 360⌋ = 3 := by norm_num [Int.floor_eq_iff]
    norm_num [wrap_lons, wrapLon, qmod, h1]
  · have h1 : ⌊(700 : ℚ) / 360⌋ = 1 := by norm_num [Int.floor_eq_iff]
    norm_num [wrap_lons, wrapLon, qmod, h1]
  · have harg : ∀ v : ℚ, v - base + period * 2 = v - base + 2 * period := by
      intro v; ring
    simp only [wrap_lons, wrapLon, harg]

/-! ### Extent Reprojector (`project_extents`)

Shapely polygons entering `project_extents` are axis-aligned rectangles
(the domain box) intersected with the CRS boundary; a CRS boundary is
modelled as a rectangle as well (exact for rectangular-boundary CRSs such
as the equirectangular family), so `intersection` is the coordinatewise
clamp, `buffer(-t)` shrinks each side by `t`, and `.bounds` of a rectangle
is the rectangle itself. -/

/-- An axis-aligned rectangle `(x1, y1, x2, y2)`. -/
structure Box where
  x1 : ℚ
  y1 : ℚ
  x2 : ℚ
  y2 : ℚ
deriving DecidableEq, Repr

/-- A cartopy CRS as consumed by `project_extents`: its class name,
`x_limits`, `y_limits`, boundary polygon, erosion `threshold`, and whether
it is a `_CylindricalProjection`. -/
structure CRS where
  name : String
  xlim : ℚ × ℚ
  ylim : ℚ × ℚ
  boundary : Box
  threshold : ℚ
  cylindrical : Bool
deriving DecidableEq, Repr

/-- Rectangle intersection (`shapely.intersection` on boxes). -/
def interBox (a b : Box) : Box :=
  { x1 := max a.x1 b.x1, y1 := max a.y1 b.y1, x2 := min a.x2 b.x2, y2 := min a.y2 b.y2 }

/-- `boundary_poly.buffer(-t)` on a rectangle: erode every side inward. -/
def erodeBox (b : Box) (t : ℚ) : Box :=
  { x1 := b.x1 + t, y1 := b.y1 + t, x2 := b.x2 - t, y2 := b.y2 - t }

/-- `np.linspace(a, b, n)`: `n` evenly spaced samples from `a` to `b`
inclusive. -/
def linspace (a b : ℚ) (n : ℕ) : List ℚ :=
  (List.range n).map fun i : ℕ => a + (i : ℚ) * ((b - a) / ((n : ℚ) - 1))

/-- `np.min` of a nonempty array (`0` on the empty list, unreached). -/
def listMin : List ℚ → ℚ
  | [] => 0
  | h :: t => t.foldl min h

/-- `np.max` of a nonempty array (`0` on the empty list, unreached). -/
def listMax : List ℚ → ℚ
  | [] => 0
  | h :: t => t.foldl max h

/-- The error raised when `dest_proj.project_geometry` fails:
`'Could not project data from %s projection to %s projection. …'`. -/
def projectionErrorMsg (src dest : CRS) : String :=
  "Could not project data from " ++ src.name ++ " projection to " ++ dest.name ++
    " projection. Ensure the coordinate reference system (crs) matches your data and the kdims."

/-- Steps 1–3 of `project_extents`: clamp the latitudes to `y_limits`,
shrink the box inward by `tol` on every side, then either wrap 10000
resampled longitudes (cylindrical source) or clamp to `x_limits`. -/
def clippedDomain (extents : ℚ × ℚ × ℚ × ℚ) (src : CRS) (tol : ℚ) : Box :=
  let x1 := extents.1
  let y1 := extents.2.1
  let x2 := extents.2.2.1
  let y2 := extents.2.2.2
  let y1 := if y1 < src.ylim.1 then src.ylim.1 else y1
  let y2 := if y2 > src.ylim.2 then src.ylim.2 else y2
  let x1 := x1 + tol
  let x2 := x2 - tol
  let y1 := y1 + tol
  let y2 := y2 - tol
  if src.cylindrical then
    let lons := wrap_lons (linspace x1 x2 10000) (-180) 360
    { x1 := listMin lons, y1 := y1, x2 := listMax lons, y2 := y2 }
  else
    { x1 := if x1 < src.xlim.1 then src.xlim.1 else x1
      y1 := y1
      x2 := if x2 > src.xlim.2 then src.xlim.2 else x2
      y2 := y2 }

/-- `project_extents(extents, src_proj, dest_proj, tol)`.  The external
`dest_proj.project_geometry(geom, src_proj)` operation is a parameter;
`none` models the operation raising `ValueError`. -/
def project_extents (extents : ℚ × ℚ × ℚ × ℚ) (src dest : CRS)
    (projGeom : CRS → CRS → Box → Option Box) (tol : ℚ) :
    Except String (ℚ × ℚ × ℚ × ℚ) :=
  let domain_in_src_proj := clippedDomain extents src tol
  let boundary_poly := src.boundary
  if src ≠ dest then
    let eroded_boundary := erodeBox boundary_poly src.threshold
    let geom_in_src_proj := interBox eroded_boundary domain_in_src_proj
    match projGeom dest src geom_in_src_proj with
    | some geom_in_crs =>
      .ok (geom_in_crs.x1, geom_in_crs.y1, geom_in_crs.x2, geom_in_crs.y2)
    | none => .error (projectionErrorMsg src dest)
  else
    let geom_in_crs := interBox boundary_poly domain_in_src_proj
    .ok (geom_in_crs.x1, geom_in_crs.y1, geom_in_crs.x2, geom_in_crs.y2)

theorem foldl_min_le :
    ∀ (t : List ℚ) (h x : ℚ), x ∈ h :: t → t.foldl min h ≤ x := by
  intro t
  induction t with
  | nil =>
    intro h x hx
    obtain rfl : x = h := by simpa using hx
    exact le_rfl
  | cons y t2 ih =>
    intro h x hx
    rw [List.foldl_cons]
    rcases List.mem_cons.mp hx with rfl | hx2
    · exact le_trans (ih (min x y) (min x y) (by simp)) (min_le_left x y)
    · rcases List.mem_cons.mp hx2 with rfl | hx3
      · exact le_trans (ih (min h x) (min h x) (by simp)) (min_le_right h x)
      · exact ih (min h y) x (by simp [hx3])

theorem le_foldl_min :
    ∀ (t : List ℚ) (h a : ℚ), a ≤ h → (∀ x ∈ t, a ≤ x) → a ≤ t.foldl min h := by
  intro t
  induction t with
  | nil => intro h a ha _; exact ha
  | cons y t2 ih =>
    intro h a ha hall
    rw [List.foldl_cons]
    exact ih (min h y) a (le_min ha (hall y (by simp)))
      (fun x hx => hall x (by simp [hx]))

theorem listMin_eq (l : List ℚ) (a : ℚ) (hmem : a ∈ l) (hlb : ∀ x ∈ l, a ≤ x) :
    listMin l = a := by
  cases l with
  | nil => simp at hmem
  | cons h t =>
    exact le_antisymm (foldl_min_le t h a hmem)
      (le_foldl_min t h a (hlb h (by simp)) (fun x hx => hlb x (by simp [hx])))

theorem le_foldl_max :
    ∀ (t : List ℚ) (h x : ℚ), x ∈ h :: t → x ≤ t.foldl max h := by
  intro t
  induction t with
  | nil =>
    intro h x hx
    obtain rfl : x = h := by simpa using hx
    exact le_rfl
  | cons y t2 ih =>
    intro h x hx
    rw [List.foldl_cons]
    rcases List.mem_cons.mp hx with rfl | hx2
    · exact le_trans (le_max_left x y) (ih (max x y) (max x y) (by simp))
    · rcases List.mem_cons.mp hx2 with rfl | hx3
      · exact le_trans (le_max_right h x) (ih (max h x) (max h x) (by simp))
      · exact ih (max h y) x (by simp [hx3])

theorem foldl_max_le :
    ∀ (t : List ℚ) (h b : ℚ), h ≤ b → (∀ x ∈ t, x ≤ b) → t.foldl max h ≤ b := by
  intro t
  induction t with
  | nil => intro h b hb _; exact hb
  | cons y t2 ih =>
    intro h b hb hall
    rw [List.foldl_cons]
    exact ih (max h y) b (max_le hb (hall y (by simp)))
      (fun x hx => hall x (by simp [hx]))

theorem listMax_eq (l : List ℚ) (b : ℚ) (hmem : b ∈ l) (hub : ∀ x ∈ l, x ≤ b) :
    listMax l = b := by
  cases l with
  | nil => simp at hmem
  | cons h t =>
    exact le_antisymm
      (foldl_max_le t h b (hub h (by simp)) (fun x hx => hub x (by simp [hx])))
      (le_foldl_max t h b hmem)

theorem wrapLon_id (v : ℚ) (h1 : -180 ≤ v) (h2 : v < 180) :
    wrapLon v (-180) 360 = v := by
  have hfloor : ⌊(v - (-180) + 360 * 2) / 360⌋ = 2 := by
    rw [Int.floor_eq_iff]
    constructor
    · rw [le_div_iff₀ (by norm_num : (0 : ℚ) < 360)]
      push_cast
      linarith
    · rw [div_lt_iff₀ (by norm_num : (0 : ℚ) < 360)]
      push_cast
      linarith
  rw [wrapLon, qmod, hfloor]
  push_cast
  ring

theorem mem_linspace_bounds (a b : ℚ) (hab : a ≤ b) :
    ∀ v ∈ linspace a b 10000, a ≤ v ∧ v ≤ b := by
  intro v hv
  rw [linspace] at hv
  obtain ⟨i, hi, rfl⟩ := List.mem_map.mp hv
  rw [List.mem_range] at hi
  have hi9 : (i : ℚ) ≤ 9999 := by exact_mod_cast Nat.le_of_lt_succ hi
  have hstep : (0 : ℚ) ≤ (b - a) / ((10000 : ℚ) - 1) := by
    apply div_nonneg (by linarith)
    norm_num
  constructor
  · have := mul_nonneg (by positivity : (0 : ℚ) ≤ (i : ℚ)) hstep
    linarith
  · have hmul : (i : ℚ) * ((b - a) / ((10000 : ℚ) - 1)) ≤
        9999 * ((b - a) / ((10000 : ℚ) - 1)) :=
      mul_le_mul_of_nonneg_right hi9 hstep
    have hclose : (9999 : ℚ) * ((b - a) / ((10000 : ℚ) - 1)) = b - a := by
      rw [show ((10000 : ℚ) - 1) = 9999 from by norm_num, ← mul_div_assoc]
      exact mul_div_cancel_left₀ _ (by norm_num)
    linarith [hmul, hclose.le]

theorem left_mem_linspace (a b : ℚ) : a ∈ linspace a b 10000 := by
  have heq : a + ((0 : ℕ) : ℚ) * ((b - a) / ((10000 : ℚ) - 1)) = a := by
    push_cast
    ring
  rw [linspace]
  exact List.mem_map.mpr ⟨0, by simp, heq⟩

theorem right_mem_linspace (a b : ℚ) : b ∈ linspace a b 10000 := by
  have hclose : ((9999 : ℕ) : ℚ) * ((b - a) / ((10000 : ℚ) - 1)) = b - a := by
    push_cast
    rw [show ((10000 : ℚ) - 1) = 9999 from by norm_num, ← mul_div_assoc]
    exact mul_div_cancel_left₀ _ (by norm_num)
  have heq : a + ((9999 : ℕ) : ℚ) * ((b - a) / ((10000 : ℚ) - 1)) = b := by
    rw [hclose]
    ring
  rw [linspace]
  exact List.mem_map.mpr ⟨9999, by simp, heq⟩

theorem clippedDomain_eq (x1 y1 x2 y2 tol : ℚ) (src : CRS)
    (hy1 : src.ylim.1 ≤ y1) (hy2 : y2 ≤ src.ylim.2)
    (hx12 : x1 + tol ≤ x2 - tol)
    (hcyl : src.cylindrical = true → -180 ≤ x1 + tol ∧ x2 - tol < 180)
    (hncyl : src.cylindrical = false →
      src.xlim.1 ≤ x1 + tol ∧ x2 - tol ≤ src.xlim.2) :
    clippedDomain (x1, y1, x2, y2) src tol =
      { x1 := x1 + tol, y1 := y1 + tol, x2 := x2 - tol, y2 := y2 - tol } := by
  rw [clippedDomain]
  dsimp only
  rw [if_neg (not_lt.mpr hy1), if_neg (not_lt.mpr hy2)]
  cases hb : src.cylindrical with
  | true =>
    obtain ⟨ha, hblt⟩ := hcyl hb
    rw [if_pos rfl]
    have hpt : ∀ v ∈ linspace (x1 + tol) (x2 - tol) 10000, wrapLon v (-180) 360 = v := by
      intro v hv
      obtain ⟨hva, hvb⟩ := mem_linspace_bounds _ _ hx12 v hv
      exact wrapLon_id v (by linarith) (by linarith)
    have hlons : wrap_lons (linspace (x1 + tol) (x2 - tol) 10000) (-180) 360 =
        linspace (x1 + tol) (x2 - tol) 10000 := by
      rw [wrap_lons, List.map_congr_left hpt, List.map_id']
    rw [hlons,
      listMin_eq _ (x1 + tol) (left_mem_linspace _ _)
        (fun v hv => (mem_linspace_bounds _ _ hx12 v hv).1),
      listMax_eq _ (x2 - tol) (right_mem_linspace _ _)
        (fun v hv => (mem_linspace_bounds _ _ hx12 v hv).2)]
  | false =>
    obtain ⟨hxa, hxb⟩ := hncyl hb
    rw [if_neg (by simp)]
    rw [if_neg (not_lt.mpr hxa), if_neg (not_lt.mpr hxb)]

/-- CLAIM C5 (confirmed): with identical source and destination CRS, a box
that (after the ε-shrink) sits inside the source's latitude limits,
longitude limits (or wrap range for a cylindrical source) and boundary
polygon is returned narrowed by exactly `tol` on every side — in
particular never expanded. -/
theorem project_extents_identity (x1 y1 x2 y2 tol : ℚ) (src : CRS)
    (projGeom : CRS → CRS → Box → Option Box)
    (hy1 : src.ylim.1 ≤ y1) (hy2 : y2 ≤ src.ylim.2)
    (hx12 : x1 + tol ≤ x2 - tol)
    (hcyl : src.cylindrical = true → -180 ≤ x1 + tol ∧ x2 - tol < 180)
    (hncyl : src.cylindrical = false →
      src.xlim.1 ≤ x1 + tol ∧ x2 - tol ≤ src.xlim.2)
    (hbx1 : src.boundary.x1 ≤ x1 + tol) (hby1 : src.boundary.y1 ≤ y1 + tol)
    (hbx2 : x2 - tol ≤ src.boundary.x2) (hby2 : y2 - tol ≤ src.boundary.y2) :
    project_extents (x1, y1, x2, y2) src src projGeom tol =
      .ok (x1 + tol, y1 + tol, x2 - tol, y2 - tol) := by
  rw [project_extents]
  dsimp only
  rw [if_neg (show ¬ src ≠ src from fun h => h rfl)]
  rw [clippedDomain_eq x1 y1 x2 y2 tol src hy1 hy2 hx12 hcyl hncyl]
  rw [interBox]
  dsimp only
  rw [max_eq_right hbx1, max_eq_right hby1, min_eq_right hbx2, min_eq_right hby2]

/-- A PlateCarree-like cylindrical CRS. -/
def pcCRS : CRS :=
  { name := "PlateCarree", xlim := (-180, 180), ylim := (-90, 90),
    boundary := { x1 := -180, y1 := -90, x2 := 180, y2 := 90 },
    threshold := 1/2, cylindrical := true }

/-- A non-cylindrical CRS distinct from `pcCRS`. -/
def tmCRS : CRS :=
  { name := "TransverseMercator", xlim := (-2000000, 2000000),
    ylim := (-1000000, 1000000),
    boundary := { x1 := -2000000, y1 := -1000000, x2 := 2000000, y2 := 1000000 },
    threshold := 10000, cylindrical := false }

/-- Witness for `project_extents_identity`: a box well inside PlateCarree
comes back shrunk by exactly the default tolerance `1e-6` per side. -/
theorem project_extents_identity_witness :
    project_extents (-100, -40, 100, 40) pcCRS pcCRS (fun _ _ _ => none)
        (1/1000000) =
      .ok (-100 + 1/1000000, -40 + 1/1000000, 100 - 1/1000000, 40 - 1/1000000) :=
  project_extents_identity (-100) (-40) 100 40 (1/1000000) pcCRS _
    (by norm_num [pcCRS]) (by norm_num [pcCRS]) (by norm_num)
    (fun _ => by norm_num) (fun h => nomatch h)
    (by norm_num [pcCRS]) (by norm_num [pcCRS]) (by norm_num [pcCRS])
    (by norm_num [pcCRS])

/-- CLAIM C6 (confirmed): when source and destination CRS differ and the
destination's `project_geometry` fails on the clipped-and-eroded geometry,
`project_extents` re-raises a `ValueError` naming both projection class
names and advising a CRS/data check, and never returns a normal result. -/
theorem project_extents_error (extents : ℚ × ℚ × ℚ × ℚ) (src dest : CRS)
    (projGeom : CRS → CRS → Box → Option Box) (tol : ℚ)
    (hne : src ≠ dest)
    (hfail : projGeom dest src
      (interBox (erodeBox src.boundary src.threshold)
        (clippedDomain extents src tol)) = none) :
    project_extents extents src dest projGeom tol =
        .error (projectionErrorMsg src dest) ∧
      ∀ b, project_extents extents src dest projGeom tol ≠ .ok b := by
  have herr : project_extents extents src dest projGeom tol =
      .error (projectionErrorMsg src dest) := by
    rw [project_extents]
    dsimp only
    rw [if_pos hne, hfail]
  exact ⟨herr, fun b hb => by rw [herr] at hb; cases hb⟩

/-- Witness for `project_extents_error`: a failing projection between two
distinct CRSs surfaces the descriptive error. -/
theorem project_extents_error_witness :
    project_extents (0, 0, 1, 1) pcCRS tmCRS (fun _ _ _ => none) (1/1000000) =
      .error (projectionErrorMsg pcCRS tmCRS) :=
  (project_extents_error (0, 0, 1, 1) pcCRS tmCRS (fun _ _ _ => none) (1/1000000)
    (by decide) rfl).1

/-! ### Proj-String Parser (`proj_to_cartopy`) -/

/-- Python `str.split(sep)` for a one-character separator: split at every
occurrence, keeping empty pieces. -/
def splitOnChar (c : Char) : List Char → List (List Char)
  | [] => [[]]
  | x :: rest =>
    let r := splitOnChar c rest
    if x = c then [] :: r
    else
      match r with
      | h :: t => (x :: h) :: t
      | [] => [[x]]

/-- Python `str.strip()`: drop whitespace from both ends. -/
def trimChars (cs : List Char) : List Char :=
  ((cs.dropWhile (·.isWhitespace)).reverse.dropWhile (·.isWhitespace)).reverse

/-- Accumulate a decimal digit string into a natural number (`none` on a
non-digit). -/
def digitsVal (acc : ℕ) : List Char → Option ℕ
  | [] => some acc
  | c :: cs =>
    if c.isDigit then digitsVal (acc * 10 + (c.toNat - 48)) cs else none

/-- Unsigned decimal literal: digits with an optional fractional part. -/
def parseDecimal (cs : List Char) : Option ℚ :=
  let intPart := cs.takeWhile (· ≠ '.')
  match cs.dropWhile (· ≠ '.') with
  | [] =>
    if intPart.isEmpty then none
    else (digitsVal 0 intPart).map fun n => (n : ℚ)
  | _ :: frac =>
    if intPart.isEmpty && frac.isEmpty then none
    else
      match digitsVal 0 intPart, digitsVal 0 frac with
      | some ip, some fp => some ((ip : ℚ) + (fp : ℚ) / (10 : ℚ) ^ frac.length)
      | _, _ => none

/-- Python `float(v)` on the plain decimal literals that occur as proj4
parameter values (optional sign, digits, optional fraction); every other
string fails the parse and is kept as text. -/
def parseFloatQ (cs : List Char) : Option ℚ :=
  match cs with
  | '-' :: rest => (parseDecimal rest).map Neg.neg
  | '+' :: rest => parseDecimal rest
  | _ => parseDecimal cs

/-- A parsed proj4 value: a number, a text token, or the assembled
standard-parallels 2-tuple. -/
inductive Val where
  | num (q : ℚ)
  | str (s : String)
  | pair (a b : Val)
deriving DecidableEq, Repr

/-- The projection classes of the fixed `proj` lookup. -/
inductive ProjCls where
  | TransverseMercator
  | LambertConformal
  | Mercator
  | UTM
deriving DecidableEq, Repr

/-- `km_proj`: proj4 keys mapped to projection constructor keywords. -/
def km_proj : List (String × String) :=
  [("lon_0", "central_longitude"), ("lat_0", "central_latitude"),
   ("x_0", "false_easting"), ("y_0", "false_northing"),
   ("k", "scale_factor"), ("zone", "zone")]

/-- `km_globe`: proj4 keys mapped to globe keywords. -/
def km_globe : List (String × String) :=
  [("a", "semimajor_axis"), ("b", "semiminor_axis")]

/-- `km_std`: the standard-parallel keys. -/
def km_std : List (String × String) := [("lat_1", "lat_1"), ("lat_2", "lat_2")]

/-- Python dict assignment `d[k] = v`: update in place or append. -/
def dinsert (k : String) (v : Val) (d : List (String × Val)) : List (String × Val) :=
  if d.any fun kv => kv.1 == k then
    d.map fun kv => if kv.1 == k then (k, v) else kv
  else d ++ [(k, v)]

/-- Python `d.pop(k, None)`: remove the binding of `k` if present. -/
def dpop (k : String) (d : List (String × Val)) : List (String × Val) :=
  d.filter fun kv => kv.1 != k

/-- The mutable locals of the `proj_to_cartopy` token loop: the resolved
class (`none` while the Python local `cl` is unbound) and the three
keyword dictionaries. -/
structure PTState where
  cl : Option ProjCls
  kw_proj : List (String × Val)
  kw_globe : List (String × Val)
  kw_std : List (String × Val)

/-- The loop state before the first token. -/
def initState : PTState := { cl := none, kw_proj := [], kw_globe := [], kw_std := [] }

/-- One iteration of `for s in srs.split('+')`: skip tokens without
exactly one `=`, strip key and value, attempt the float parse, resolve the
`proj` class, and classify the key through the three lookup tables. -/
def ptStep (st : PTState) (token : List Char) : PTState :=
  match splitOnChar '=' token with
  | [k0, v0] =>
    let k : String := (trimChars k0).asString
    let vtxt : String := (trimChars v0).asString
    let v : Val :=
      match parseFloatQ (trimChars v0) with
      | some q => .num q
      | none => .str vtxt
    let cl : Option ProjCls :=
      if k = "proj" then
        if v = .str "tmerc" then some .TransverseMercator
        else if v = .str "lcc" then some .LambertConformal
        else if v = .str "merc" then some .Mercator
        else if v = .str "utm" then some .UTM
        else st.cl
      else st.cl
    let kp := match km_proj.lookup k with
      | some kw => dinsert kw v st.kw_proj
      | none => st.kw_proj
    let kg := match km_globe.lookup k with
      | some kw => dinsert kw v st.kw_globe
      | none => st.kw_globe
    let ks := match km_std.lookup k with
      | some kw => dinsert kw v st.kw_std
      | none => st.kw_std
    { cl := cl, kw_proj := kp, kw_globe := kg, kw_std := ks }
  | _ => st

/-- The constructed projection: its class, the keyword arguments passed to
the constructor, and the globe keywords (`none` when no globe keys were
collected). -/
structure ProjResult where
  cls : ProjCls
  kwargs : List (String × Val)
  globe : Option (List (String × Val))
deriving DecidableEq, Repr

/-- The construction stage of `proj_to_cartopy` on the final loop state:
`none` models the raises (unresolved `proj` class → `NameError` on `cl`;
a missing `lat_1`/`lat_2` while `kw_std` is nonempty → `KeyError`).  When
the resolved class is Mercator the collected false-easting and
false-northing entries are popped before construction. -/
def assembleProj (st : PTState) : Option ProjResult :=
  let globe : Option (List (String × Val)) :=
    if st.kw_globe.isEmpty then none else some st.kw_globe
  match st.cl with
  | none => none
  | some cls =>
    let kwStd : Option (List (String × Val)) :=
      if st.kw_std.isEmpty then some st.kw_proj
      else
        match st.kw_std.lookup "lat_1", st.kw_std.lookup "lat_2" with
        | some a, some b => some (dinsert "standard_parallels" (.pair a b) st.kw_proj)
        | _, _ => none
    match kwStd with
    | none => none
    | some kw1 =>
      let kw2 :=
        if cls = ProjCls.Mercator then dpop "false_northing" (dpop "false_easting" kw1)
        else kw1
      some { cls := cls, kwargs := kw2, globe := globe }

/-- The parsing core of `proj_to_cartopy` on the proj4 `srs` string: run
the token loop, then construct. -/
def proj_to_cartopy (srs : String) : Option ProjResult :=
  assembleProj ((splitOnChar '+' srs.toList).foldl ptStep initState)

theorem lookup_dpop_self (k : String) :
    ∀ d : List (String × Val), (dpop k d).lookup k = none := by
  intro d
  induction d with
  | nil => rfl
  | cons kv t ih =>
    rw [dpop, List.filter_cons]
    cases hb : kv.1 == k with
    | true =>
      simp only [bne, hb, Bool.not_true, Bool.false_eq_true, if_false]
      exact ih
    | false =>
      simp only [bne, hb, Bool.not_false, if_true]
      have hk : (k == kv.1) = false := by
        rw [beq_eq_false_iff_ne] at hb ⊢
        exact fun e => hb e.symm
      rw [List.lookup_cons]
      simp only [hk]
      exact ih

theorem lookup_dpop_ne (k j : String) (hkj : (k == j) = false) :
    ∀ d : List (String × Val), (dpop j d).lookup k = d.lookup k := by
  intro d
  induction d with
  | nil => rfl
  | cons kv t ih =>
    rw [dpop, List.filter_cons]
    cases hb : kv.1 == j with
    | true =>
      simp only [bne, hb, Bool.not_true, Bool.false_eq_true, if_false]
      have hkv : kv.1 = j := by simpa using hb
      have hk : (k == kv.1) = false := by
        rw [hkv]
        exact hkj
      rw [show List.filter (fun kv => !kv.1 == j) t = dpop j t from rfl, ih,
        List.lookup_cons]
      simp only [hk]
    | false =>
      simp only [bne, hb, Bool.not_false, if_true]
      rw [List.lookup_cons, List.lookup_cons]
      cases hk : k == kv.1 with
      | true => simp only [hk]
      | false => simp only [hk]; exact ih

theorem assembleProj_mercator (st : PTState) (res : ProjResult)
    (h : assembleProj st = some res) (hm : res.cls = .Mercator) :
    res.kwargs.lookup "false_easting" = none ∧
      res.kwargs.lookup "false_northing" = none := by
  rw [assembleProj] at h
  dsimp only at h
  cases hcl : st.cl with
  | none => rw [hcl] at h; cases h
  | some cls =>
    rw [hcl] at h
    dsimp only at h
    revert h
    cases hks : (if st.kw_std.isEmpty then some st.kw_proj
        else
          match st.kw_std.lookup "lat_1", st.kw_std.lookup "lat_2" with
          | some a, some b =>
            some (dinsert "standard_parallels" (.pair a b) st.kw_proj)
          | _, _ => none) with
    | none => intro h; cases h
    | some kw1 =>
      intro h
      have hres := Option.some.inj h
      rw [← hres] at hm ⊢
      dsimp only at hm ⊢
      rw [if_pos hm]
      constructor
      · rw [lookup_dpop_ne "false_easting" "false_northing" (by decide)]
        exact lookup_dpop_self _ _
      · exact lookup_dpop_self _ _

/-- The Mercator example string of the claim. -/
def mercSrs : String := "+proj=merc +x_0=500000 +y_0=100 +lat_0=0"

/-- CLAIM C9 (confirmed): parsing the claim's Mercator proj4 string
resolves the Mercator class, and the constructor keyword dictionary keeps
only `central_latitude` — the collected false-easting and false-northing
entries are discarded; in general, whenever the resolved class is
Mercator, the final keyword dictionary binds neither `false_easting` nor
`false_northing`. -/
theorem proj_to_cartopy_mercator :
    proj_to_cartopy mercSrs =
        some { cls := .Mercator, kwargs := [("central_latitude", .num 0)],
               globe := none } ∧
      ∀ srs res, proj_to_cartopy srs = some res → res.cls = .Mercator →
        res.kwargs.lookup "false_easting" = none ∧
        res.kwargs.lookup "false_northing" = none := by
  constructor
  · rfl
  · intro srs res h hm
    exact assembleProj_mercator _ res h hm

/-- Witness for `proj_to_cartopy_mercator`: the general Mercator-pop
conjunct applied at the claim's concrete string. -/
theorem proj_to_cartopy_mercator_witness :
    List.lookup "false_easting"
        ([("central_latitude", Val.num 0)] : List (String × Val)) = none ∧
      List.lookup "false_northing"
        ([("central_latitude", Val.num 0)] : List (String × Val)) = none :=
  proj_to_cartopy_mercator.2 mercSrs
    { cls := .Mercator, kwargs := [("central_latitude", .num 0)], globe := none }
    proj_to_cartopy_mercator.1 rfl

end GeoViewsUtil
